import Mathlib

/-!
Verification of the `viz.py` visualization module (sisi_dataset repository).

The module is a collection of stateless numpy/PIL image helpers:
  * `array2pil`                       - numeric array to PIL image (mode inference),
  * `batch_of_images_to_grid`        - tile a batch of images into a 2D mosaic,
  * `viz_segmentation_label`          - color-code an integer label map,
  * `viz_overlayed_segmentation_label` - alpha-blend a colorized label onto a base image.

We shallowly embed the relevant numpy and PIL operations.  A numpy array is
modelled as a shape (list of dimension sizes) together with its flat row-major
data buffer (`NDArray`).  Pixel values are modelled as `Int` (the arrays in the
module hold uint8 intensities and integer class labels; where the code writes
into a uint8 buffer we apply the `% 256` wrap explicitly).  Fallible Python
operations are modelled in `Except`:
  * a failing `assert` in the source is the spec's `InvalidArgument` error,
  * a Python/numpy `IndexError` is the spec's `IndexOutOfRange` error,
  * numpy `ValueError` (reshape size mismatch and friends) is `ValueError`,
  * reading a never-assigned local is `UnboundLocalError`.
-/

namespace Viz

/-- Error kinds raised by the Python code, under the spec's naming. -/
inductive PyError where
  | InvalidArgument
  | IndexOutOfRange
  | ValueError
  | UnboundLocalError
deriving DecidableEq, Repr

/-- A numpy array: its shape and its flat row-major data buffer.
A well-formed array has `data.length = shape.prod`. -/
structure NDArray where
  shape : List Nat
  data : List Int
deriving DecidableEq, Repr

/-- Number of axes (`ndarray.ndim`). -/
def ndim (a : NDArray) : Nat := a.shape.length

/-- Row-major flat offset of a multi-index: for shape `d :: ds` and index
`i :: is`, the offset is `i * ds.prod + flatIndex ds is` (numpy C order). -/
def flatIndex : List Nat → List Nat → Nat
  | _ :: ds, i :: is => i * ds.prod + flatIndex ds is
  | _, _ => 0

/-- Row-major multi-index of a flat offset (inverse of `flatIndex` on
in-range offsets). -/
def multiIndex : List Nat → Nat → List Nat
  | [], _ => []
  | _ :: ds, t => t / ds.prod :: multiIndex ds (t % ds.prod)

/-- `imgs[:n]` for `n ≥ 0`: truncate along axis 0.  Slicing a 0-d array is a
numpy `IndexError` ("too many indices for array"), which the spec's error
taxonomy calls `IndexOutOfRange`. -/
def sliceTo (a : NDArray) (n : Nat) : Except PyError NDArray :=
  match a.shape with
  | [] => .error .IndexOutOfRange
  | d :: rest => .ok ⟨min n d :: rest, a.data.take (min n d * rest.prod)⟩

/-- Insert `v` at position `i` of a list (used to model `np.expand_dims`). -/
def insertAt (l : List Nat) (i : Nat) (v : Nat) : List Nat :=
  l.take i ++ v :: l.drop i

/-- `np.expand_dims(a, axis)`: insert a length-1 axis; the data buffer is
unchanged. -/
def expand_dims (a : NDArray) (axis : Nat) : NDArray :=
  ⟨insertAt a.shape axis 1, a.data⟩

/-- `np.pad(a, [(0,g),(0,0),...], mode="constant", constant_values=0)`:
append `g` zero-filled slices along axis 0. -/
def pad0 (a : NDArray) (g : Nat) : NDArray :=
  match a.shape with
  | [] => a
  | d :: rest => ⟨(d + g) :: rest, a.data ++ List.replicate (g * rest.prod) 0⟩

/-- `a.reshape(s)`: reinterpret the row-major buffer under a new shape;
numpy raises `ValueError` when the total size differs. -/
def reshape (a : NDArray) (s : List Nat) : Except PyError NDArray :=
  if s.prod = a.shape.prod then .ok ⟨s, a.data⟩ else .error .ValueError

/-- Swap positions `i` and `j` of a list of naturals. -/
def swapIdx (i j : Nat) (l : List Nat) : List Nat :=
  (List.range l.length).map fun t =>
    if t = i then l.getD j 0 else if t = j then l.getD i 0 else l.getD t 0

/-- `a.swapaxes(i, j)`: the entry of the result at multi-index `m` is the
entry of `a` at `m` with positions `i` and `j` exchanged. -/
def swapaxes (a : NDArray) (i j : Nat) : NDArray :=
  let s := swapIdx i j a.shape
  ⟨s, (List.range s.prod).map fun t =>
      a.data.getD (flatIndex a.shape (swapIdx i j (multiIndex s t))) 0⟩

/-- `a.squeeze(axis=2)`: drop axis 2, which must exist and have size 1
(otherwise numpy raises an error, modelled as `ValueError`). -/
def squeezeAxis2 (a : NDArray) : Except PyError NDArray :=
  if a.shape.getD 2 0 = 1 ∧ 3 ≤ a.shape.length then
    .ok ⟨a.shape.take 2 ++ a.shape.drop 3, a.data⟩
  else .error .ValueError

/-- `batch_of_images_to_grid(imgs, rows, cols)` from `viz.py`:

    assert rows>0 and cols>0, "rows and cols must be positive integers"
    n_cells = (rows*cols)
    imgs = imgs[:n_cells]
    n_dims = imgs.ndim
    assert n_dims==3 or n_dims==4, "Incorrect # of dimensions for input array"
    if n_dims == 3:
        imgs = np.expand_dims(imgs, axis=3)
    n_batch, img_height, img_width, n_channels = imgs.shape
    n_gap = n_cells - n_batch
    imgs = np.pad(imgs, pad_width=[(0,n_gap),(0,0),(0,0),(0,0)], ...)
    grid = imgs.reshape(rows,cols,img_height,img_width,n_channels).swapaxes(1,2)
    grid = grid.reshape(rows*img_height,cols*img_width,n_channels)
    if n_dims == 3:
        grid = grid.squeeze(axis=2)
    return grid

`rows` and `cols` are Python ints (modelled as `Int`); after the assert they
are positive, so `rows*cols` and the reshape arguments are the naturals
`rows.toNat`, `cols.toNat`.  `n_gap` uses truncated subtraction, which agrees
with Python here because slicing guarantees `n_batch ≤ n_cells`. -/
def batch_of_images_to_grid (imgs0 : NDArray) (rows cols : Int) :
    Except PyError NDArray :=
  if 0 < rows ∧ 0 < cols then
    let n_cells : Nat := (rows * cols).toNat
    match sliceTo imgs0 n_cells with
    | .error e => .error e
    | .ok imgs1 =>
      let n_dims := ndim imgs1
      if n_dims = 3 ∨ n_dims = 4 then
        let imgs2 := if n_dims = 3 then expand_dims imgs1 3 else imgs1
        let img_height := imgs2.shape.getD 1 0
        let img_width := imgs2.shape.getD 2 0
        let n_channels := imgs2.shape.getD 3 0
        let n_gap := n_cells - imgs2.shape.getD 0 0
        let imgs3 := pad0 imgs2 n_gap
        match reshape imgs3 [rows.toNat, cols.toNat, img_height, img_width, n_channels] with
        | .error e => .error e
        | .ok g1 =>
          match reshape (swapaxes g1 1 2) [rows.toNat * img_height, cols.toNat * img_width, n_channels] with
          | .error e => .error e
          | .ok g3 => if n_dims = 3 then squeezeAxis2 g3 else .ok g3
      else .error .InvalidArgument
  else .error .InvalidArgument

/-! ### Auxiliary list and arithmetic lemmas -/

theorem getD_replicate_zero : ∀ (g i : Nat), (List.replicate g (0 : Int)).getD i 0 = 0
  | 0, _ => rfl
  | _ + 1, 0 => rfl
  | g + 1, i + 1 => getD_replicate_zero g i

/-- Reading the zero-padded buffer below the truncation point reads the
original buffer (out-of-range reads agree on the default 0). -/
theorem getD_pad_lt (L : List Int) (m g idx : Nat) (h : idx < m) :
    (L.take m ++ List.replicate g 0).getD idx 0 = L.getD idx 0 := by
  by_cases hL : idx < L.length
  · have h1 : idx < (L.take m).length := by
      rw [List.length_take]; omega
    rw [List.getD_append _ _ _ _ h1, List.getD_eq_getElem _ _ h1,
      List.getD_eq_getElem _ _ hL, List.getElem_take]
  · have h2 : (L.take m).length ≤ idx := by
      rw [List.length_take]; omega
    rw [List.getD_append_right _ _ _ _ h2, getD_replicate_zero,
      List.getD_eq_default _ _ (by omega)]

/-- Reading the zero-padded buffer at or above the truncation point gives 0. -/
theorem getD_pad_ge (L : List Int) (m g idx : Nat) (h : m ≤ idx) :
    (L.take m ++ List.replicate g 0).getD idx 0 = 0 := by
  have h2 : (L.take m).length ≤ idx := by
    rw [List.length_take]; omega
  rw [List.getD_append_right _ _ _ _ h2, getD_replicate_zero]

theorem multiIndex_cons (d : Nat) (ds : List Nat) (a r : Nat) (hr : r < ds.prod) :
    multiIndex (d :: ds) (a * ds.prod + r) = a :: multiIndex ds r := by
  have hP : 0 < ds.prod := Nat.lt_of_le_of_lt (Nat.zero_le r) hr
  have hdiv : (a * ds.prod + r) / ds.prod = a := by
    rw [Nat.mul_comm a ds.prod, Nat.mul_add_div hP, Nat.div_eq_of_lt hr]
    omega
  have hmod : (a * ds.prod + r) % ds.prod = r := by
    rw [Nat.mul_comm a ds.prod, Nat.mul_add_mod, Nat.mod_eq_of_lt hr]
  show (a * ds.prod + r) / ds.prod :: multiIndex ds ((a * ds.prod + r) % ds.prod) =
    a :: multiIndex ds r
  rw [hdiv, hmod]

/-- A strict bound for a mixed-radix digit contribution. -/
theorem digit_lt (y h r M : Nat) (hy : y < h) (hr : r < M) : y * M + r < h * M := by
  calc y * M + r < y * M + M := by omega
    _ = (y + 1) * M := by ring
    _ ≤ h * M := Nat.mul_le_mul_right M hy

theorem toNat_mul_pos {a b : Int} (ha : 0 < a) (hb : 0 < b) :
    (a * b).toNat = a.toNat * b.toNat := by
  have h1 : ((a * b).toNat : Int) = a * b :=
    Int.toNat_of_nonneg (le_of_lt (mul_pos ha hb))
  have h2 : ((a.toNat * b.toNat : Nat) : Int) = a * b := by
    push_cast
    rw [Int.toNat_of_nonneg ha.le, Int.toNat_of_nonneg hb.le]
  exact Int.natCast_inj.mp (h1.trans h2.symm)

/-! ### Evaluation of the grid pipeline -/

/-- The flat buffer produced by the grid pipeline on a rank-4 batch of
shape `[b, h, w, ch]` with grid `r × c` and `n = r * c` cells: truncate the
buffer to `min n b` images, zero-pad to `n` images, then read it through the
`reshape`/`swapaxes 1 2`/`reshape` index transformation. -/
def gridData (r c n b h w ch : Nat) (D : List Int) : List Int :=
  (List.range ((swapIdx 1 2 [r, c, h, w, ch]).prod)).map fun t =>
    (D.take (min n b * ([h, w, ch] : List Nat).prod) ++
      List.replicate ((n - min n b) * ([h, w, ch] : List Nat).prod) 0).getD
      (flatIndex [r, c, h, w, ch]
        (swapIdx 1 2 (multiIndex (swapIdx 1 2 [r, c, h, w, ch]) t))) 0

/-- Raw evaluation of `batch_of_images_to_grid` on a rank-4 input. -/
theorem grid4_raw (b h w ch : Nat) (rows cols : Int) (D : List Int)
    (hr : 0 < rows) (hc : 0 < cols) :
    batch_of_images_to_grid ⟨[b, h, w, ch], D⟩ rows cols =
      .ok ⟨[rows.toNat * h, cols.toNat * w, ch],
           gridData rows.toNat cols.toNat (rows * cols).toNat b h w ch D⟩ := by
  have hn : rows.toNat * cols.toNat = (rows * cols).toNat :=
    (toNat_mul_pos hr hc).symm
  have hcond1 : ([rows.toNat, cols.toNat, h, w, ch] : List Nat).prod =
      ((min (rows * cols).toNat b + ((rows * cols).toNat - min (rows * cols).toNat b)) ::
        ([h, w, ch] : List Nat)).prod := by
    simp only [List.prod_cons, List.prod_nil]
    have : min (rows * cols).toNat b + ((rows * cols).toNat - min (rows * cols).toNat b) =
        (rows * cols).toNat := by omega
    rw [this, ← hn]; ring
  have hcond2 : ([rows.toNat * h, cols.toNat * w, ch] : List Nat).prod =
      (swapIdx 1 2 [rows.toNat, cols.toNat, h, w, ch]).prod := by
    show _ = ([rows.toNat, h, cols.toNat, w, ch] : List Nat).prod
    simp only [List.prod_cons, List.prod_nil]; ring
  unfold batch_of_images_to_grid
  rw [if_pos (⟨hr, hc⟩ : 0 < rows ∧ 0 < cols)]
  simp only [sliceTo, ndim, List.length_cons, List.length_nil]
  norm_num
  simp only [pad0, reshape, List.getD, swapaxes, gridData]
  rw [if_pos hcond1]
  dsimp only
  rw [if_pos hcond2]
  dsimp only
  norm_num [List.prod_cons, List.prod_nil]

/-- Raw evaluation of `batch_of_images_to_grid` on a rank-3 input: the code
inserts a singleton channel axis, runs the rank-4 pipeline and squeezes the
channel axis away again. -/
theorem grid3_raw (b h w : Nat) (rows cols : Int) (D : List Int)
    (hr : 0 < rows) (hc : 0 < cols) :
    batch_of_images_to_grid ⟨[b, h, w], D⟩ rows cols =
      .ok ⟨[rows.toNat * h, cols.toNat * w],
           gridData rows.toNat cols.toNat (rows * cols).toNat b h w 1 D⟩ := by
  have hn : rows.toNat * cols.toNat = (rows * cols).toNat :=
    (toNat_mul_pos hr hc).symm
  have hcond1 : ([rows.toNat, cols.toNat, h, w, 1] : List Nat).prod =
      ((min (rows * cols).toNat b + ((rows * cols).toNat - min (rows * cols).toNat b)) ::
        ([h, w, 1] : List Nat)).prod := by
    simp only [List.prod_cons, List.prod_nil]
    have : min (rows * cols).toNat b + ((rows * cols).toNat - min (rows * cols).toNat b) =
        (rows * cols).toNat := by omega
    rw [this, ← hn]; ring
  have hcond2 : ([rows.toNat * h, cols.toNat * w, 1] : List Nat).prod =
      (swapIdx 1 2 [rows.toNat, cols.toNat, h, w, 1]).prod := by
    show _ = ([rows.toNat, h, cols.toNat, w, 1] : List Nat).prod
    simp only [List.prod_cons, List.prod_nil]; ring
  unfold batch_of_images_to_grid
  rw [if_pos (⟨hr, hc⟩ : 0 < rows ∧ 0 < cols)]
  simp only [sliceTo, ndim, List.length_cons, List.length_nil]
  norm_num
  simp only [expand_dims]
  have hins : insertAt [min (rows * cols).toNat b, h, w] 3 1 =
      [min (rows * cols).toNat b, h, w, 1] := rfl
  rw [hins]
  simp only [pad0, reshape, List.getD, swapaxes, gridData, squeezeAxis2]
  simp only [List.getElem?_cons_zero, List.getElem?_cons_succ, Option.getD_some]
  rw [if_pos hcond1]
  dsimp only
  rw [if_pos hcond2]
  dsimp only
  apply congrArg Except.ok
  congr 1
  have hp : ([h, w, 1] : List Nat).prod = h * w := by
    simp [List.prod_cons, List.prod_nil]
  rw [hp]

/-- Pixel-level characterization of the grid buffer: output pixel
`(R*h + y, C*w + x, k)` of the `r × c` grid is pixel `(y, x, k)` of input
image `R*c + C` when that image exists (index below `min (r*c) b`), and 0
(black padding) otherwise. -/
theorem gridData_getD (r c b h w ch : Nat) (D : List Int)
    (R C y x k : Nat) (hR : R < r) (hC : C < c) (hy : y < h) (hx : x < w) (hk : k < ch) :
    (gridData r c (r * c) b h w ch D).getD
        ((R * h + y) * (c * w * ch) + ((C * w + x) * ch + k)) 0 =
      if R * c + C < min (r * c) b then
        D.getD ((R * c + C) * (h * w * ch) + (y * (w * ch) + (x * ch + k))) 0
      else 0 := by
  have hswap : swapIdx 1 2 [r, c, h, w, ch] = [r, h, c, w, ch] := rfl
  have hrest2 : (C * w + x) * ch + k < c * w * ch :=
    digit_lt (C * w + x) (c * w) k ch (digit_lt C c x w hC hx) hk
  have hT : (R * h + y) * (c * w * ch) + ((C * w + x) * ch + k) <
      ([r, h, c, w, ch] : List Nat).prod := by
    have h2 := digit_lt (R * h + y) (r * h) ((C * w + x) * ch + k) (c * w * ch)
      (digit_lt R r y h hR hy) hrest2
    have heq : r * h * (c * w * ch) = ([r, h, c, w, ch] : List Nat).prod := by
      simp only [List.prod_cons, List.prod_nil]; ring
    omega
  rw [gridData, hswap]
  rw [List.getD_eq_getElem _ _ (by simpa using hT), List.getElem_map, List.getElem_range]
  have hnest : (R * h + y) * (c * w * ch) + ((C * w + x) * ch + k) =
      R * ([h, c, w, ch] : List Nat).prod +
        (y * ([c, w, ch] : List Nat).prod +
          (C * ([w, ch] : List Nat).prod +
            (x * ([ch] : List Nat).prod + (k * ([] : List Nat).prod + 0)))) := by
    simp only [List.prod_cons, List.prod_nil]; ring
  have b0 : (0 : Nat) < ([] : List Nat).prod := by norm_num
  have b1 : k * ([] : List Nat).prod + 0 < ([ch] : List Nat).prod := by
    simp only [List.prod_cons, List.prod_nil]; omega
  have b2 : x * ([ch] : List Nat).prod + (k * ([] : List Nat).prod + 0) <
      ([w, ch] : List Nat).prod := by
    have := digit_lt x w k ch hx hk
    simp only [List.prod_cons, List.prod_nil]
    have hc1 : ch * 1 = ch := by omega
    rw [hc1]; omega
  have b3 : C * ([w, ch] : List Nat).prod +
      (x * ([ch] : List Nat).prod + (k * ([] : List Nat).prod + 0)) <
      ([c, w, ch] : List Nat).prod := by
    have h1 : x * ch + k < w * ch := digit_lt x w k ch hx hk
    have h2 := digit_lt C c (x * ch + k) (w * ch) hC h1
    have heq : c * (w * ch) = ([c, w, ch] : List Nat).prod := by
      simp only [List.prod_cons, List.prod_nil]; ring
    simp only [List.prod_cons, List.prod_nil]
    nlinarith [h2]
  have b4 : y * ([c, w, ch] : List Nat).prod +
      (C * ([w, ch] : List Nat).prod +
        (x * ([ch] : List Nat).prod + (k * ([] : List Nat).prod + 0))) <
      ([h, c, w, ch] : List Nat).prod := by
    have h2 := digit_lt y h ((C * w + x) * ch + k) (c * w * ch) hy hrest2
    simp only [List.prod_cons, List.prod_nil]
    nlinarith [h2]
  rw [hnest, multiIndex_cons _ _ _ _ b4, multiIndex_cons _ _ _ _ b3,
    multiIndex_cons _ _ _ _ b2, multiIndex_cons _ _ _ _ b1,
    multiIndex_cons _ _ _ _ b0]
  have hnil : multiIndex ([] : List Nat) 0 = [] := rfl
  rw [hnil]
  have hswap2 : swapIdx 1 2 [R, y, C, x, k] = [R, C, y, x, k] := rfl
  rw [hswap2]
  have hflat : flatIndex [r, c, h, w, ch] [R, C, y, x, k] =
      (R * c + C) * (h * w * ch) + (y * (w * ch) + (x * ch + k)) := by
    simp only [flatIndex, List.prod_cons, List.prod_nil]; ring
  rw [hflat]
  by_cases hi : R * c + C < min (r * c) b
  · rw [if_pos hi]
    have hin : (R * c + C) * (h * w * ch) + (y * (w * ch) + (x * ch + k)) <
        min (r * c) b * ([h, w, ch] : List Nat).prod := by
      have h1 : x * ch + k < w * ch := digit_lt x w k ch hx hk
      have h2 : y * (w * ch) + (x * ch + k) < h * (w * ch) :=
        digit_lt y h (x * ch + k) (w * ch) hy h1
      have h3 := digit_lt (R * c + C) (min (r * c) b) (y * (w * ch) + (x * ch + k))
        (h * (w * ch)) hi h2
      simp only [List.prod_cons, List.prod_nil]
      have e1 : h * w * ch = h * (w * ch) := by ring
      have e2 : h * (w * (ch * 1)) = h * (w * ch) := by ring
      rw [e1, e2]
      exact h3
    rw [getD_pad_lt _ _ _ _ hin]
  · rw [if_neg hi]
    have hge : min (r * c) b * ([h, w, ch] : List Nat).prod ≤
        (R * c + C) * (h * w * ch) + (y * (w * ch) + (x * ch + k)) := by
      have h1 : min (r * c) b * (h * (w * ch)) ≤ (R * c + C) * (h * (w * ch)) :=
        Nat.mul_le_mul_right _ (by omega)
      simp only [List.prod_cons, List.prod_nil]
      have e1 : h * w * ch = h * (w * ch) := by ring
      have e2 : h * (w * (ch * 1)) = h * (w * ch) := by ring
      rw [e1, e2]
      exact le_trans h1 (Nat.le_add_right _ _)
    rw [getD_pad_ge _ _ _ _ hge]

/-- An empty batch yields an all-zero grid buffer. -/
theorem gridData_zero (r c n h w ch : Nat) (D : List Int) :
    ∀ v ∈ gridData r c n 0 h w ch D, v = 0 := by
  intro v hv
  rw [gridData] at hv
  obtain ⟨t, _, rfl⟩ := List.mem_map.mp hv
  simp only [Nat.min_zero, Nat.zero_mul, List.take_zero, List.nil_append]
  rw [getD_replicate_zero]

/-- When the batch holds at least `r*c` images, the grid buffer only
depends on the first `r*c` images of the data buffer. -/
theorem gridData_take (r c h w ch b : Nat) (D : List Int) (hb : r * c ≤ b) :
    gridData r c (r * c) b h w ch D =
      gridData r c (r * c) (r * c) h w ch (D.take (r * c * (h * w * ch))) := by
  have hP : ([h, w, ch] : List Nat).prod = h * w * ch := by
    simp only [List.prod_cons, List.prod_nil]; ring
  have e1 : min (r * c) b = r * c := by omega
  have hbuf : ((D.take (r * c * (h * w * ch))).take
        (min (r * c) (r * c) * ([h, w, ch] : List Nat).prod) ++
      List.replicate ((r * c - min (r * c) (r * c)) * ([h, w, ch] : List Nat).prod) 0) =
      (D.take (min (r * c) b * ([h, w, ch] : List Nat).prod) ++
        List.replicate ((r * c - min (r * c) b) * ([h, w, ch] : List Nat).prod) 0) := by
    rw [Nat.min_self, List.take_take, e1, hP, Nat.min_self]
  simp only [gridData]
  simp only [hbuf]

/-! ### Claims about the Grid Tiler -/

/-- C1: for every batch array of rank 3 or rank 4, all positive `rows`,
`cols` and batch size `b ≤ rows*cols`, `batch_of_images_to_grid` succeeds
and returns shape `(rows*h, cols*w)` for rank-3 input and
`(rows*h, cols*w, c)` for rank-4 input: the output rank mirrors the input
rank. -/
theorem grid_output_shape (b h w c : Nat) (rows cols : Int) (D3 D4 : List Int)
    (hr : 0 < rows) (hc : 0 < cols) (hb : (b : Int) ≤ rows * cols) :
    (∃ out, batch_of_images_to_grid ⟨[b, h, w], D3⟩ rows cols = .ok out ∧
       out.shape = [rows.toNat * h, cols.toNat * w]) ∧
    (∃ out, batch_of_images_to_grid ⟨[b, h, w, c], D4⟩ rows cols = .ok out ∧
       out.shape = [rows.toNat * h, cols.toNat * w, c]) :=
  ⟨⟨_, grid3_raw b h w rows cols D3 hr hc, rfl⟩,
   ⟨_, grid4_raw b h w c rows cols D4 hr hc, rfl⟩⟩

theorem grid_output_shape_witness :
    (∃ out, batch_of_images_to_grid ⟨[1, 2, 2], [1, 2, 3, 4]⟩ 1 1 = .ok out ∧
       out.shape = [(1 : Int).toNat * 2, (1 : Int).toNat * 2]) ∧
    (∃ out, batch_of_images_to_grid ⟨[1, 2, 2, 3], List.replicate 12 5⟩ 1 1 = .ok out ∧
       out.shape = [(1 : Int).toNat * 2, (1 : Int).toNat * 2, 3]) :=
  grid_output_shape 1 2 2 3 1 1 [1, 2, 3, 4] (List.replicate 12 5)
    (by decide) (by decide) (by decide)

/-- C2: the Grid Tiler places images in row-major order: for every batch
index `i` below both the batch size and `rows*cols`, pixel `(y, x[, k])` of
the grid cell `(i / cols, i % cols)` equals pixel `(y, x[, k])` of input
image `i`, for rank-3 and rank-4 batches alike. -/
theorem grid_row_major (b h w c : Nat) (rows cols : Int) (D3 D4 : List Int)
    (hr : 0 < rows) (hc : 0 < cols)
    (hD3 : D3.length = b * h * w) (hD4 : D4.length = b * h * w * c)
    (i y x k : Nat) (hib : i < b) (hin : i < rows.toNat * cols.toNat)
    (hy : y < h) (hx : x < w) (hk : k < c) :
    (∃ out, batch_of_images_to_grid ⟨[b, h, w], D3⟩ rows cols = .ok out ∧
       out.data.getD (flatIndex [rows.toNat * h, cols.toNat * w]
         [i / cols.toNat * h + y, i % cols.toNat * w + x]) 0 =
       D3.getD (flatIndex [b, h, w] [i, y, x]) 0) ∧
    (∃ out, batch_of_images_to_grid ⟨[b, h, w, c], D4⟩ rows cols = .ok out ∧
       out.data.getD (flatIndex [rows.toNat * h, cols.toNat * w, c]
         [i / cols.toNat * h + y, i % cols.toNat * w + x, k]) 0 =
       D4.getD (flatIndex [b, h, w, c] [i, y, x, k]) 0) := by
  have hc' : 0 < cols.toNat := by omega
  have hR : i / cols.toNat < rows.toNat := by
    rw [Nat.div_lt_iff_lt_mul hc']
    omega
  have hC : i % cols.toNat < cols.toNat := Nat.mod_lt _ hc'
  have hi : i / cols.toNat * cols.toNat + i % cols.toNat = i := by
    rw [Nat.mul_comm]
    exact Nat.div_add_mod i cols.toNat
  have hn : (rows * cols).toNat = rows.toNat * cols.toNat := toNat_mul_pos hr hc
  constructor
  · refine ⟨_, grid3_raw b h w rows cols D3 hr hc, ?_⟩
    have e1 : flatIndex [rows.toNat * h, cols.toNat * w]
        [i / cols.toNat * h + y, i % cols.toNat * w + x] =
        (i / cols.toNat * h + y) * (cols.toNat * w * 1) +
          ((i % cols.toNat * w + x) * 1 + 0) := by
      simp only [flatIndex, List.prod_cons, List.prod_nil]
    have e2 : flatIndex [b, h, w] [i, y, x] =
        (i / cols.toNat * cols.toNat + i % cols.toNat) * (h * w * 1) +
          (y * (w * 1) + (x * 1 + 0)) := by
      simp only [flatIndex, List.prod_cons, List.prod_nil]
      rw [hi]; ring
    rw [e1, e2, hn]
    rw [gridData_getD rows.toNat cols.toNat b h w 1 D3 _ _ y x 0 hR hC hy hx
      (by omega)]
    rw [if_pos (by omega)]
  · refine ⟨_, grid4_raw b h w c rows cols D4 hr hc, ?_⟩
    have e1 : flatIndex [rows.toNat * h, cols.toNat * w, c]
        [i / cols.toNat * h + y, i % cols.toNat * w + x, k] =
        (i / cols.toNat * h + y) * (cols.toNat * w * c) +
          ((i % cols.toNat * w + x) * c + k) := by
      simp only [flatIndex, List.prod_cons, List.prod_nil]
      ring
    have e2 : flatIndex [b, h, w, c] [i, y, x, k] =
        (i / cols.toNat * cols.toNat + i % cols.toNat) * (h * w * c) +
          (y * (w * c) + (x * c + k)) := by
      simp only [flatIndex, List.prod_cons, List.prod_nil]
      rw [hi]; ring
    rw [e1, e2, hn]
    rw [gridData_getD rows.toNat cols.toNat b h w c D4 _ _ y x k hR hC hy hx hk]
    rw [if_pos (by omega)]

theorem grid_row_major_witness :
    (∃ out, batch_of_images_to_grid
        ⟨[6, 2, 2], [0, 1, 2, 3, 4, 5, 6, 7, 8, 9, 10, 11, 12, 13, 14, 15, 16,
          17, 18, 19, 20, 21, 22, 23]⟩ 2 3 = .ok out ∧
       out.data.getD (flatIndex [(2 : Int).toNat * 2, (3 : Int).toNat * 2]
         [5 / (3 : Int).toNat * 2 + 0, 5 % (3 : Int).toNat * 2 + 1]) 0 =
       ([0, 1, 2, 3, 4, 5, 6, 7, 8, 9, 10, 11, 12, 13, 14, 15, 16, 17, 18, 19,
         20, 21, 22, 23] : List Int).getD (flatIndex [6, 2, 2] [5, 0, 1]) 0) ∧
    (∃ out, batch_of_images_to_grid
        ⟨[6, 2, 2, 1], [0, 1, 2, 3, 4, 5, 6, 7, 8, 9, 10, 11, 12, 13, 14, 15,
          16, 17, 18, 19, 20, 21, 22, 23]⟩ 2 3 = .ok out ∧
       out.data.getD (flatIndex [(2 : Int).toNat * 2, (3 : Int).toNat * 2, 1]
         [5 / (3 : Int).toNat * 2 + 0, 5 % (3 : Int).toNat * 2 + 1, 0]) 0 =
       ([0, 1, 2, 3, 4, 5, 6, 7, 8, 9, 10, 11, 12, 13, 14, 15, 16, 17, 18, 19,
         20, 21, 22, 23] : List Int).getD (flatIndex [6, 2, 2, 1] [5, 0, 1, 0]) 0) :=
  grid_row_major 6 2 2 1 2 3
    [0, 1, 2, 3, 4, 5, 6, 7, 8, 9, 10, 11, 12, 13, 14, 15, 16, 17, 18, 19, 20,
      21, 22, 23]
    [0, 1, 2, 3, 4, 5, 6, 7, 8, 9, 10, 11, 12, 13, 14, 15, 16, 17, 18, 19, 20,
      21, 22, 23]
    (by decide) (by decide) (by decide) (by decide) 5 0 1 0
    (by decide) (by decide) (by decide) (by decide) (by decide)

/-- C3 (amended): the Grid Tiler raises `InvalidArgument` when `rows ≤ 0` or
`cols ≤ 0`; with positive grid dimensions it raises `InvalidArgument` for
every input of rank 1, 2, or at least 5, while for rank 3 or 4 it raises no
error at all.  (A rank-0 input is the one exception to the spec's wording:
it fails at the `imgs[:n_cells]` truncation step with an index error before
the rank check runs; see the counterexample.) -/
theorem grid_error_conditions (imgs : NDArray) (rows cols : Int) :
    (rows ≤ 0 ∨ cols ≤ 0 →
      batch_of_images_to_grid imgs rows cols = .error .InvalidArgument) ∧
    (0 < rows → 0 < cols → 1 ≤ ndim imgs → ndim imgs ≠ 3 → ndim imgs ≠ 4 →
      batch_of_images_to_grid imgs rows cols = .error .InvalidArgument) ∧
    (0 < rows → 0 < cols → ndim imgs = 3 ∨ ndim imgs = 4 →
      ∃ out, batch_of_images_to_grid imgs rows cols = .ok out) := by
  obtain ⟨s, D⟩ := imgs
  refine ⟨?_, ?_, ?_⟩
  · intro hneg
    rw [batch_of_images_to_grid, if_neg (by omega)]
  · intro hr hc hrank h3 h4
    obtain ⟨d, rest, rfl⟩ : ∃ d rest, s = d :: rest := by
      cases s with
      | nil => simp [ndim] at hrank
      | cons d rest => exact ⟨d, rest, rfl⟩
    rw [batch_of_images_to_grid, if_pos (⟨hr, hc⟩ : 0 < rows ∧ 0 < cols)]
    simp only [sliceTo]
    have hlen : ndim ⟨min (rows * cols).toNat d :: rest, D.take
        (min (rows * cols).toNat d * rest.prod)⟩ = ndim ⟨d :: rest, D⟩ := by
      simp [ndim]
    rw [if_neg (by rw [hlen]; omega)]
  · intro hr hc hrank
    rcases hrank with h3 | h4
    · obtain ⟨b, h, w, rfl⟩ : ∃ b h w, s = [b, h, w] := by
        rcases s with _ | ⟨a, _ | ⟨b, _ | ⟨c, _ | ⟨d, t⟩⟩⟩⟩ <;>
          simp [ndim] at h3 ⊢
      exact ⟨_, grid3_raw b h w rows cols D hr hc⟩
    · obtain ⟨b, h, w, c, rfl⟩ : ∃ b h w c, s = [b, h, w, c] := by
        rcases s with _ | ⟨a, _ | ⟨b, _ | ⟨c, _ | ⟨d, _ | ⟨e, t⟩⟩⟩⟩⟩ <;>
          simp [ndim] at h4 ⊢
      exact ⟨_, grid4_raw b h w c rows cols D hr hc⟩

theorem grid_error_conditions_witness :
    batch_of_images_to_grid ⟨[1, 1, 1], [9]⟩ 0 2 = .error .InvalidArgument ∧
    batch_of_images_to_grid ⟨[2, 2], [1, 2, 3, 4]⟩ 1 1 = .error .InvalidArgument ∧
    ∃ out, batch_of_images_to_grid ⟨[1, 1, 1], [9]⟩ 1 1 = .ok out :=
  ⟨(grid_error_conditions ⟨[1, 1, 1], [9]⟩ 0 2).1 (Or.inl (by decide)),
   (grid_error_conditions ⟨[2, 2], [1, 2, 3, 4]⟩ 1 1).2.1 (by decide) (by decide)
     (by decide) (by decide) (by decide),
   (grid_error_conditions ⟨[1, 1, 1], [9]⟩ 1 1).2.2 (by decide) (by decide)
     (Or.inl (by decide))⟩

/-- C3, counterexample to the claim as stated: a rank-0 (0-dimensional)
array has rank neither 3 nor 4, yet the call does not produce
`InvalidArgument`: slicing `imgs[:n_cells]` fails first with a numpy
`IndexError` ("too many indices for array"), i.e. the spec's
`IndexOutOfRange`, because the rank check only runs after the truncation
step. -/
theorem grid_rank0_cex :
    batch_of_images_to_grid ⟨[], [7]⟩ 1 1 = .error .IndexOutOfRange ∧
    PyError.IndexOutOfRange ≠ PyError.InvalidArgument := by
  constructor
  · rfl
  · decide

/-- C4: with more images than grid cells (`b > rows*cols`) the Grid Tiler
succeeds, every cell `i < rows*cols` shows input image `i`, and the output
equals the output on the batch truncated to its first `rows*cols` images:
images at index `rows*cols` and beyond have no effect. -/
theorem grid_truncation (b h w c : Nat) (rows cols : Int) (D3 D4 : List Int)
    (hr : 0 < rows) (hc : 0 < cols) (hb : rows.toNat * cols.toNat < b) :
    (∃ out, batch_of_images_to_grid ⟨[b, h, w], D3⟩ rows cols = .ok out ∧
       ∀ i y x, i < rows.toNat * cols.toNat → y < h → x < w →
         out.data.getD (flatIndex [rows.toNat * h, cols.toNat * w]
           [i / cols.toNat * h + y, i % cols.toNat * w + x]) 0 =
         D3.getD (flatIndex [b, h, w] [i, y, x]) 0) ∧
    (∃ out, batch_of_images_to_grid ⟨[b, h, w, c], D4⟩ rows cols = .ok out ∧
       ∀ i y x k, i < rows.toNat * cols.toNat → y < h → x < w → k < c →
         out.data.getD (flatIndex [rows.toNat * h, cols.toNat * w, c]
           [i / cols.toNat * h + y, i % cols.toNat * w + x, k]) 0 =
         D4.getD (flatIndex [b, h, w, c] [i, y, x, k]) 0) ∧
    batch_of_images_to_grid ⟨[b, h, w], D3⟩ rows cols =
      batch_of_images_to_grid ⟨[rows.toNat * cols.toNat, h, w],
        D3.take (rows.toNat * cols.toNat * (h * w * 1))⟩ rows cols ∧
    batch_of_images_to_grid ⟨[b, h, w, c], D4⟩ rows cols =
      batch_of_images_to_grid ⟨[rows.toNat * cols.toNat, h, w, c],
        D4.take (rows.toNat * cols.toNat * (h * w * c))⟩ rows cols := by
  have hc' : 0 < cols.toNat := by omega
  have hn : (rows * cols).toNat = rows.toNat * cols.toNat := toNat_mul_pos hr hc
  refine ⟨?_, ?_, ?_, ?_⟩
  · refine ⟨_, grid3_raw b h w rows cols D3 hr hc, ?_⟩
    intro i y x hin hy hx
    have hR : i / cols.toNat < rows.toNat := by
      rw [Nat.div_lt_iff_lt_mul hc']; omega
    have hC : i % cols.toNat < cols.toNat := Nat.mod_lt _ hc'
    have hi : i / cols.toNat * cols.toNat + i % cols.toNat = i := by
      rw [Nat.mul_comm]; exact Nat.div_add_mod i cols.toNat
    have e1 : flatIndex [rows.toNat * h, cols.toNat * w]
        [i / cols.toNat * h + y, i % cols.toNat * w + x] =
        (i / cols.toNat * h + y) * (cols.toNat * w * 1) +
          ((i % cols.toNat * w + x) * 1 + 0) := by
      simp only [flatIndex, List.prod_cons, List.prod_nil]
    have e2 : flatIndex [b, h, w] [i, y, x] =
        (i / cols.toNat * cols.toNat + i % cols.toNat) * (h * w * 1) +
          (y * (w * 1) + (x * 1 + 0)) := by
      simp only [flatIndex, List.prod_cons, List.prod_nil]
      rw [hi]; ring
    rw [e1, e2, hn]
    rw [gridData_getD rows.toNat cols.toNat b h w 1 D3 _ _ y x 0 hR hC hy hx
      (by omega)]
    rw [if_pos (by omega)]
  · refine ⟨_, grid4_raw b h w c rows cols D4 hr hc, ?_⟩
    intro i y x k hin hy hx hk
    have hR : i / cols.toNat < rows.toNat := by
      rw [Nat.div_lt_iff_lt_mul hc']; omega
    have hC : i % cols.toNat < cols.toNat := Nat.mod_lt _ hc'
    have hi : i / cols.toNat * cols.toNat + i % cols.toNat = i := by
      rw [Nat.mul_comm]; exact Nat.div_add_mod i cols.toNat
    have e1 : flatIndex [rows.toNat * h, cols.toNat * w, c]
        [i / cols.toNat * h + y, i % cols.toNat * w + x, k] =
        (i / cols.toNat * h + y) * (cols.toNat * w * c) +
          ((i % cols.toNat * w + x) * c + k) := by
      simp only [flatIndex, List.prod_cons, List.prod_nil]
      ring
    have e2 : flatIndex [b, h, w, c] [i, y, x, k] =
        (i / cols.toNat * cols.toNat + i % cols.toNat) * (h * w * c) +
          (y * (w * c) + (x * c + k)) := by
      simp only [flatIndex, List.prod_cons, List.prod_nil]
      rw [hi]; ring
    rw [e1, e2, hn]
    rw [gridData_getD rows.toNat cols.toNat b h w c D4 _ _ y x k hR hC hy hx hk]
    rw [if_pos (by omega)]
  · rw [grid3_raw b h w rows cols D3 hr hc,
      grid3_raw (rows.toNat * cols.toNat) h w rows cols _ hr hc, hn,
      gridData_take rows.toNat cols.toNat h w 1 b D3 (by omega)]
  · rw [grid4_raw b h w c rows cols D4 hr hc,
      grid4_raw (rows.toNat * cols.toNat) h w c rows cols _ hr hc, hn,
      gridData_take rows.toNat cols.toNat h w c b D4 (by omega)]

theorem grid_truncation_witness :
    (∃ out, batch_of_images_to_grid ⟨[5, 1, 1], [10, 20, 30, 40, 50]⟩ 2 2 = .ok out ∧
       ∀ i y x, i < (2 : Int).toNat * (2 : Int).toNat → y < 1 → x < 1 →
         out.data.getD (flatIndex [(2 : Int).toNat * 1, (2 : Int).toNat * 1]
           [i / (2 : Int).toNat * 1 + y, i % (2 : Int).toNat * 1 + x]) 0 =
         ([10, 20, 30, 40, 50] : List Int).getD (flatIndex [5, 1, 1] [i, y, x]) 0) ∧
    (∃ out, batch_of_images_to_grid ⟨[5, 1, 1, 1], [10, 20, 30, 40, 50]⟩ 2 2 = .ok out ∧
       ∀ i y x k, i < (2 : Int).toNat * (2 : Int).toNat → y < 1 → x < 1 → k < 1 →
         out.data.getD (flatIndex [(2 : Int).toNat * 1, (2 : Int).toNat * 1, 1]
           [i / (2 : Int).toNat * 1 + y, i % (2 : Int).toNat * 1 + x, k]) 0 =
         ([10, 20, 30, 40, 50] : List Int).getD (flatIndex [5, 1, 1, 1] [i, y, x, k]) 0) ∧
    batch_of_images_to_grid ⟨[5, 1, 1], [10, 20, 30, 40, 50]⟩ 2 2 =
      batch_of_images_to_grid ⟨[(2 : Int).toNat * (2 : Int).toNat, 1, 1],
        ([10, 20, 30, 40, 50] : List Int).take
          ((2 : Int).toNat * (2 : Int).toNat * (1 * 1 * 1))⟩ 2 2 ∧
    batch_of_images_to_grid ⟨[5, 1, 1, 1], [10, 20, 30, 40, 50]⟩ 2 2 =
      batch_of_images_to_grid ⟨[(2 : Int).toNat * (2 : Int).toNat, 1, 1, 1],
        ([10, 20, 30, 40, 50] : List Int).take
          ((2 : Int).toNat * (2 : Int).toNat * (1 * 1 * 1))⟩ 2 2 :=
  grid_truncation 5 1 1 1 2 2 [10, 20, 30, 40, 50] [10, 20, 30, 40, 50]
    (by decide) (by decide) (by decide)

/-- C5: with fewer images than grid cells (`b < rows*cols`) every grid cell
with row-major index at least `b` is exactly zero-valued, and an empty
batch (rank 3 or 4) yields an all-zero grid of the computed shape. -/
theorem grid_zero_padding (b h w c : Nat) (rows cols : Int) (D3 D4 : List Int)
    (hr : 0 < rows) (hc : 0 < cols) (hb : b < rows.toNat * cols.toNat) :
    (∃ out, batch_of_images_to_grid ⟨[b, h, w], D3⟩ rows cols = .ok out ∧
       ∀ i y x, b ≤ i → i < rows.toNat * cols.toNat → y < h → x < w →
         out.data.getD (flatIndex [rows.toNat * h, cols.toNat * w]
           [i / cols.toNat * h + y, i % cols.toNat * w + x]) 0 = 0) ∧
    (∃ out, batch_of_images_to_grid ⟨[b, h, w, c], D4⟩ rows cols = .ok out ∧
       ∀ i y x k, b ≤ i → i < rows.toNat * cols.toNat → y < h → x < w → k < c →
         out.data.getD (flatIndex [rows.toNat * h, cols.toNat * w, c]
           [i / cols.toNat * h + y, i % cols.toNat * w + x, k]) 0 = 0) ∧
    (∃ out, batch_of_images_to_grid ⟨[0, h, w], []⟩ rows cols = .ok out ∧
       out.shape = [rows.toNat * h, cols.toNat * w] ∧ ∀ v ∈ out.data, v = 0) ∧
    (∃ out, batch_of_images_to_grid ⟨[0, h, w, c], []⟩ rows cols = .ok out ∧
       out.shape = [rows.toNat * h, cols.toNat * w, c] ∧ ∀ v ∈ out.data, v = 0) := by
  have hc' : 0 < cols.toNat := by omega
  have hn : (rows * cols).toNat = rows.toNat * cols.toNat := toNat_mul_pos hr hc
  refine ⟨?_, ?_, ?_, ?_⟩
  · refine ⟨_, grid3_raw b h w rows cols D3 hr hc, ?_⟩
    intro i y x hbi hin hy hx
    have hR : i / cols.toNat < rows.toNat := by
      rw [Nat.div_lt_iff_lt_mul hc']; omega
    have hC : i % cols.toNat < cols.toNat := Nat.mod_lt _ hc'
    have hi : i / cols.toNat * cols.toNat + i % cols.toNat = i := by
      rw [Nat.mul_comm]; exact Nat.div_add_mod i cols.toNat
    have e1 : flatIndex [rows.toNat * h, cols.toNat * w]
        [i / cols.toNat * h + y, i % cols.toNat * w + x] =
        (i / cols.toNat * h + y) * (cols.toNat * w * 1) +
          ((i % cols.toNat * w + x) * 1 + 0) := by
      simp only [flatIndex, List.prod_cons, List.prod_nil]
    rw [e1, hn]
    rw [gridData_getD rows.toNat cols.toNat b h w 1 D3 _ _ y x 0 hR hC hy hx
      (by omega)]
    rw [if_neg (by omega)]
  · refine ⟨_, grid4_raw b h w c rows cols D4 hr hc, ?_⟩
    intro i y x k hbi hin hy hx hk
    have hR : i / cols.toNat < rows.toNat := by
      rw [Nat.div_lt_iff_lt_mul hc']; omega
    have hC : i % cols.toNat < cols.toNat := Nat.mod_lt _ hc'
    have hi : i / cols.toNat * cols.toNat + i % cols.toNat = i := by
      rw [Nat.mul_comm]; exact Nat.div_add_mod i cols.toNat
    have e1 : flatIndex [rows.toNat * h, cols.toNat * w, c]
        [i / cols.toNat * h + y, i % cols.toNat * w + x, k] =
        (i / cols.toNat * h + y) * (cols.toNat * w * c) +
          ((i % cols.toNat * w + x) * c + k) := by
      simp only [flatIndex, List.prod_cons, List.prod_nil]
      ring
    rw [e1, hn]
    rw [gridData_getD rows.toNat cols.toNat b h w c D4 _ _ y x k hR hC hy hx hk]
    rw [if_neg (by omega)]
  · refine ⟨_, grid3_raw 0 h w rows cols [] hr hc, rfl, ?_⟩
    exact gridData_zero _ _ _ _ _ _ _
  · refine ⟨_, grid4_raw 0 h w c rows cols [] hr hc, rfl, ?_⟩
    exact gridData_zero _ _ _ _ _ _ _

theorem grid_zero_padding_witness :
    (∃ out, batch_of_images_to_grid ⟨[1, 1, 1], [9]⟩ 2 2 = .ok out ∧
       ∀ i y x, 1 ≤ i → i < (2 : Int).toNat * (2 : Int).toNat → y < 1 → x < 1 →
         out.data.getD (flatIndex [(2 : Int).toNat * 1, (2 : Int).toNat * 1]
           [i / (2 : Int).toNat * 1 + y, i % (2 : Int).toNat * 1 + x]) 0 = 0) ∧
    (∃ out, batch_of_images_to_grid ⟨[1, 1, 1, 1], [9]⟩ 2 2 = .ok out ∧
       ∀ i y x k, 1 ≤ i → i < (2 : Int).toNat * (2 : Int).toNat → y < 1 → x < 1 → k < 1 →
         out.data.getD (flatIndex [(2 : Int).toNat * 1, (2 : Int).toNat * 1, 1]
           [i / (2 : Int).toNat * 1 + y, i % (2 : Int).toNat * 1 + x, k]) 0 = 0) ∧
    (∃ out, batch_of_images_to_grid ⟨[0, 1, 1], []⟩ 2 2 = .ok out ∧
       out.shape = [(2 : Int).toNat * 1, (2 : Int).toNat * 1] ∧ ∀ v ∈ out.data, v = 0) ∧
    (∃ out, batch_of_images_to_grid ⟨[0, 1, 1, 1], []⟩ 2 2 = .ok out ∧
       out.shape = [(2 : Int).toNat * 1, (2 : Int).toNat * 1, 1] ∧ ∀ v ∈ out.data, v = 0) :=
  grid_zero_padding 1 1 1 1 2 2 [9] [9] (by decide) (by decide) (by decide)

/-! ### Label Colorizer (`viz_segmentation_label`) -/

/-- CPython list indexing (`colormap[uid]`): an index `k` with
`0 ≤ k < len` reads entry `k`; a negative `k` with `-len ≤ k < 0` reads
entry `len + k`; anything else raises `IndexError` (`IndexOutOfRange`). -/
def pyIndex (cm : List (List Int)) (k : Int) : Except PyError (List Int) :=
  if 0 ≤ k ∧ k < cm.length then .ok (cm.getD k.toNat [])
  else if 0 ≤ k + cm.length ∧ k < 0 then .ok (cm.getD (k + cm.length).toNat [])
  else .error .IndexOutOfRange

/-- The entry index that `pyIndex` reads for an in-range `k`. -/
def pyNorm (cm : List (List Int)) (k : Int) : Nat :=
  if 0 ≤ k then k.toNat else (k + cm.length).toNat

/-- All values of a 2D array, row by row. -/
def vals (lab : List (List Int)) : List Int :=
  lab.foldr (fun row acc => row ++ acc) []

def insertSorted (v : Int) : List Int → List Int
  | [] => [v]
  | u :: us => if v ≤ u then v :: u :: us else u :: insertSorted v us

/-- Insertion sort, ascending. -/
def sortInts (l : List Int) : List Int := l.foldr insertSorted []

/-- `np.unique(label)`: the distinct values of the array in ascending
order. -/
def npUnique (lab : List (List Int)) : List Int := sortInts (vals lab).dedup

/-- Writing an `Int` into the `uint8` buffer `label_viz` keeps the value
modulo 256. -/
def castU8 (color : List Int) : List Int := color.map (fun v => v % 256)

/-- `label_viz[label == uid] = color`: paint every pixel whose label equals
`uid` with `color` (stored as uint8), leaving other pixels unchanged. -/
def paintMask (uid : Int) (color : List Int) (lab : List (List Int))
    (viz : List (List (List Int))) : List (List (List Int)) :=
  List.zipWith (fun lrow vrow =>
      List.zipWith (fun lval pv => if lval = uid then castU8 color else pv) lrow vrow)
    lab viz

/-- The module's default colormap: black, guava red, nice green, nice
blue. -/
def defaultLabelColormap : List (List Int) :=
  [[0, 0, 0], [255, 79, 64], [115, 173, 33], [48, 126, 199]]

/-- `viz_segmentation_label(label, colormap)` from `viz.py`:

    if colormap is None:
        colormap = [[0,0,0], [255,79,64], [115,173,33],[48,126,199]]
    label_viz = np.zeros((label.shape[0],label.shape[1],3), dtype=np.uint8)
    uids = np.unique(label)
    for uid in uids:
        label_viz[label==uid] = colormap[uid]
    return PIL.Image.fromarray(label_viz)

The result is modelled as the `h × w × 3` pixel array backing the returned
PIL image.  The optional JPEG save (`saveto`) is file I/O and is not
modelled. -/
def viz_segmentation_label (label : List (List Int))
    (colormap : Option (List (List Int))) :
    Except PyError (List (List (List Int))) :=
  let cm := colormap.getD defaultLabelColormap
  let init : List (List (List Int)) :=
    List.replicate label.length
      (List.replicate (label.getD 0 []).length ([0, 0, 0] : List Int))
  (npUnique label).foldlM (fun viz uid => do
      let color ← pyIndex cm uid
      pure (paintMask uid color label viz)) init

/-- Pixel `(y, x)` of a color image (list-of-rows-of-pixels). -/
def px (img : List (List (List Int))) (y x : Nat) : List Int :=
  (img.getD y []).getD x []

/-- Value `(y, x)` of a 2D label array. -/
def lv (lab : List (List Int)) (y x : Nat) : Int :=
  (lab.getD y []).getD x 0

/-! ### Lemmas about the colorizer -/

theorem getD_zipWith {α β γ : Type} (f : α → β → γ) (as : List α) (bs : List β)
    (i : Nat) (d : γ) (da : α) (db : β) (h1 : i < as.length) (h2 : i < bs.length) :
    (List.zipWith f as bs).getD i d = f (as.getD i da) (bs.getD i db) := by
  induction as generalizing bs i with
  | nil => simp at h1
  | cons a as ih =>
    cases bs with
    | nil => simp at h2
    | cons b bs =>
      cases i with
      | zero => rfl
      | succ i =>
        simp only [List.zipWith_cons_cons, List.getD, List.getElem?_cons_succ]
        exact ih bs i (by simpa using h1) (by simpa using h2)

theorem getD_replicate {α : Type} (a d : α) (n i : Nat) (h : i < n) :
    (List.replicate n a).getD i d = a := by
  rw [List.getD_eq_getElem _ _ (by simpa using h), List.getElem_replicate]

theorem mem_insertSorted (v a : Int) (l : List Int) :
    a ∈ insertSorted v l ↔ a = v ∨ a ∈ l := by
  induction l with
  | nil => simp [insertSorted]
  | cons u us ih =>
    rw [insertSorted]
    by_cases h : v ≤ u
    · rw [if_pos h]
      simp [List.mem_cons]
    · rw [if_neg h]
      simp only [List.mem_cons, ih]
      tauto

theorem mem_sortInts (a : Int) (l : List Int) : a ∈ sortInts l ↔ a ∈ l := by
  induction l with
  | nil => simp [sortInts]
  | cons u us ih =>
    show a ∈ insertSorted u (sortInts us) ↔ _
    rw [mem_insertSorted, ih]
    simp [List.mem_cons]

theorem mem_npUnique (a : Int) (lab : List (List Int)) :
    a ∈ npUnique lab ↔ a ∈ vals lab := by
  rw [npUnique, mem_sortInts, List.mem_dedup]

theorem mem_vals_iff (a : Int) (lab : List (List Int)) :
    a ∈ vals lab ↔ ∃ row ∈ lab, a ∈ row := by
  induction lab with
  | nil => simp [vals]
  | cons r rs ih =>
    show a ∈ r ++ vals rs ↔ _
    rw [List.mem_append, ih]
    simp only [List.mem_cons]
    constructor
    · rintro (h | ⟨row, hrow, ha⟩)
      · exact ⟨r, Or.inl rfl, h⟩
      · exact ⟨row, Or.inr hrow, ha⟩
    · rintro ⟨row, hrow | hrow, ha⟩
      · exact Or.inl (hrow ▸ ha)
      · exact Or.inr ⟨row, hrow, ha⟩

theorem lv_mem_vals (lab : List (List Int)) (y x : Nat)
    (hy : y < lab.length) (hx : x < (lab.getD y []).length) :
    lv lab y x ∈ vals lab := by
  rw [mem_vals_iff]
  refine ⟨lab.getD y [], ?_, ?_⟩
  · rw [List.getD_eq_getElem _ _ hy]
    exact List.getElem_mem hy
  · rw [lv, List.getD_eq_getElem _ _ hx]
    exact List.getElem_mem hx

theorem pyIndex_ok (cm : List (List Int)) (k : Int)
    (h1 : -(cm.length : Int) ≤ k) (h2 : k < cm.length) :
    pyIndex cm k = .ok (cm.getD (pyNorm cm k) []) := by
  rw [pyIndex, pyNorm]
  by_cases h : 0 ≤ k
  · rw [if_pos ⟨h, h2⟩, if_pos h]
  · rw [if_neg (by tauto), if_pos ⟨by omega, by omega⟩, if_neg h]

theorem pyIndex_err (cm : List (List Int)) (k : Int)
    (h : k < -(cm.length : Int) ∨ (cm.length : Int) ≤ k) :
    pyIndex cm k = .error .IndexOutOfRange := by
  rw [pyIndex, if_neg (by omega), if_neg (by omega)]

theorem paintMask_length (uid : Int) (color : List Int) (lab : List (List Int))
    (viz : List (List (List Int))) :
    (paintMask uid color lab viz).length = min lab.length viz.length := by
  rw [paintMask, List.length_zipWith]

theorem px_paintMask (uid : Int) (color : List Int) (lab : List (List Int))
    (viz : List (List (List Int))) (y x : Nat)
    (hy1 : y < lab.length) (hy2 : y < viz.length)
    (hx1 : x < (lab.getD y []).length) (hx2 : x < ((viz.getD y []).length)) :
    px (paintMask uid color lab viz) y x =
      if lv lab y x = uid then castU8 color else px viz y x := by
  rw [px, paintMask, getD_zipWith _ _ _ _ _ [] [] hy1 hy2,
    getD_zipWith _ _ _ _ _ 0 [] hx1 hx2]
  rfl

theorem paintMask_row_length (uid : Int) (color : List Int) (lab : List (List Int))
    (viz : List (List (List Int))) (y : Nat)
    (hy1 : y < lab.length) (hy2 : y < viz.length) :
    ((paintMask uid color lab viz).getD y []).length =
      min (lab.getD y []).length (viz.getD y []).length := by
  rw [paintMask, getD_zipWith _ _ _ _ _ [] [] hy1 hy2, List.length_zipWith]

/-- When every unique value is an in-range index, the colorizer loop
succeeds and computes the pure painting fold. -/
theorem label_fold_ok (cm : List (List Int)) (lab : List (List Int)) :
    ∀ (us : List Int),
      (∀ u ∈ us, -(cm.length : Int) ≤ u ∧ u < cm.length) →
      ∀ viz, (List.foldlM (fun viz uid => do
          let color ← pyIndex cm uid
          pure (paintMask uid color lab viz)) viz us) =
        .ok (us.foldl (fun viz uid =>
          paintMask uid (cm.getD (pyNorm cm uid) []) lab viz) viz) := by
  intro us
  induction us with
  | nil => intro _ viz; rfl
  | cons u rest ih =>
    intro hus viz
    rw [List.foldlM_cons,
      pyIndex_ok cm u (hus u (List.mem_cons_self u rest)).1
        (hus u (List.mem_cons_self u rest)).2]
    exact ih (fun v hv => hus v (List.mem_cons_of_mem _ hv))
      (paintMask u (cm.getD (pyNorm cm u) []) lab viz)

/-- When some unique value is out of range in both directions, the
colorizer loop raises `IndexOutOfRange`. -/
theorem label_fold_err (cm : List (List Int)) (lab : List (List Int)) :
    ∀ (us : List Int),
      (∃ u ∈ us, u < -(cm.length : Int) ∨ (cm.length : Int) ≤ u) →
      ∀ viz, (List.foldlM (fun viz uid => do
          let color ← pyIndex cm uid
          pure (paintMask uid color lab viz)) viz us) =
        .error .IndexOutOfRange := by
  intro us
  induction us with
  | nil =>
    rintro ⟨u, hu, _⟩ viz
    simp at hu
  | cons u rest ih =>
    rintro ⟨v, hv, hbad⟩ viz
    rw [List.foldlM_cons]
    by_cases hu : u < -(cm.length : Int) ∨ (cm.length : Int) ≤ u
    · rw [pyIndex_err cm u hu]
      rfl
    · push_neg at hu
      rw [pyIndex_ok cm u (by omega) (by omega)]
      apply ih
      rcases List.mem_cons.mp hv with rfl | h
      · exact absurd hbad (by omega)
      · exact ⟨v, h, hbad⟩

/-- The pure painting fold: dimensions are preserved and, after painting
all values in `us`, a pixel whose label value lies in `us` shows that
value's colormap color. -/
theorem foldl_paint_spec (cm : List (List Int)) (lab : List (List Int)) (W : Nat)
    (hu : ∀ row ∈ lab, row.length = W) :
    ∀ (us : List Int) (viz : List (List (List Int))),
      viz.length = lab.length →
      (∀ y, y < lab.length → (viz.getD y []).length = W) →
      (us.foldl (fun viz uid =>
          paintMask uid (cm.getD (pyNorm cm uid) []) lab viz) viz).length = lab.length ∧
      (∀ y, y < lab.length →
        ((us.foldl (fun viz uid =>
            paintMask uid (cm.getD (pyNorm cm uid) []) lab viz) viz).getD y []).length = W) ∧
      (∀ y x, y < lab.length → x < W →
        px (us.foldl (fun viz uid =>
            paintMask uid (cm.getD (pyNorm cm uid) []) lab viz) viz) y x =
          if lv lab y x ∈ us then castU8 (cm.getD (pyNorm cm (lv lab y x)) [])
          else px viz y x) := by
  have hlabrow : ∀ y, y < lab.length → (lab.getD y []).length = W := by
    intro y hy
    apply hu
    rw [List.getD_eq_getElem _ _ hy]
    exact List.getElem_mem hy
  intro us
  induction us with
  | nil =>
    intro viz hlen hrow
    refine ⟨hlen, hrow, ?_⟩
    intro y x hy hx
    rw [List.foldl_nil, if_neg (by simp)]
  | cons u rest ih =>
    intro viz hlen hrow
    have hlen1 : (paintMask u (cm.getD (pyNorm cm u) []) lab viz).length = lab.length := by
      rw [paintMask_length, hlen, Nat.min_self]
    have hrow1 : ∀ y, y < lab.length →
        ((paintMask u (cm.getD (pyNorm cm u) []) lab viz).getD y []).length = W := by
      intro y hy
      rw [paintMask_row_length _ _ _ _ _ hy (by omega), hlabrow y hy, hrow y hy,
        Nat.min_self]
    obtain ⟨l1, l2, l3⟩ := ih (paintMask u (cm.getD (pyNorm cm u) []) lab viz) hlen1 hrow1
    refine ⟨l1, l2, ?_⟩
    intro y x hy hx
    have hstep := l3 y x hy hx
    rw [List.foldl_cons]
    refine Eq.trans hstep ?_
    by_cases hmem : lv lab y x ∈ rest
    · rw [if_pos hmem, if_pos (List.mem_cons_of_mem _ hmem)]
    · rw [if_neg hmem]
      rw [px_paintMask _ _ _ _ _ _ hy (by omega) (by rw [hlabrow y hy]; omega)
        (by rw [hrow y hy]; omega)]
      by_cases heq : lv lab y x = u
      · rw [if_pos heq, if_pos (by rw [heq]; exact List.mem_cons_self u rest), heq]
      · rw [if_neg heq, if_neg (by
          intro hin
          rcases List.mem_cons.mp hin with h | h
          · exact heq h
          · exact hmem h)]

/-- Full behaviour of `viz_segmentation_label` on a uniform `label` whose
values are all valid (possibly negative) colormap indices: it succeeds,
keeps the height and width, and paints every pixel with its value's
colormap entry (negative values addressing from the end), stored as
uint8. -/
theorem viz_label_spec (label : List (List Int)) (cmo : Option (List (List Int)))
    (W : Nat) (hW : (label.getD 0 []).length = W)
    (hu : ∀ row ∈ label, row.length = W)
    (hvals : ∀ v ∈ vals label,
      -((cmo.getD defaultLabelColormap).length : Int) ≤ v ∧
        v < (cmo.getD defaultLabelColormap).length) :
    ∃ out, viz_segmentation_label label cmo = .ok out ∧
      out.length = label.length ∧
      (∀ y, y < label.length → (out.getD y []).length = W) ∧
      (∀ y x, y < label.length → x < W →
        px out y x = castU8 ((cmo.getD defaultLabelColormap).getD
          (pyNorm (cmo.getD defaultLabelColormap) (lv label y x)) [])) := by
  have hfold := label_fold_ok (cmo.getD defaultLabelColormap) label (npUnique label)
    (fun u hmem => hvals u ((mem_npUnique u label).mp hmem))
    (List.replicate label.length
      (List.replicate (label.getD 0 []).length ([0, 0, 0] : List Int)))
  have hinit1 : (List.replicate label.length
      (List.replicate (label.getD 0 []).length ([0, 0, 0] : List Int))).length =
      label.length := List.length_replicate _ _
  have hinit2 : ∀ y, y < label.length →
      ((List.replicate label.length
        (List.replicate (label.getD 0 []).length ([0, 0, 0] : List Int))).getD y
          []).length = W := by
    intro y hy
    rw [getD_replicate _ _ _ _ hy, List.length_replicate, hW]
  obtain ⟨l1, l2, l3⟩ := foldl_paint_spec (cmo.getD defaultLabelColormap) label W hu
    (npUnique label) _ hinit1 hinit2
  refine ⟨_, hfold, l1, l2, ?_⟩
  intro y x hy hx
  rw [l3 y x hy hx, if_pos]
  rw [mem_npUnique]
  apply lv_mem_vals label y x hy
  have : (label.getD y []).length = W := by
    apply hu
    rw [List.getD_eq_getElem _ _ hy]
    exact List.getElem_mem hy
  omega

/-! ### Claims about the Label Colorizer -/

/-- C6: on a 2D label array (uniform width `W`) whose values all lie within
the colormap bounds, `viz_segmentation_label` produces a 3-channel color
image of the same height and width in which every pixel with label value
`k` is colored exactly `colormap[k]` (colormap components being bytes). -/
theorem label_colorizer_paints (label : List (List Int))
    (cmo : Option (List (List Int))) (W : Nat)
    (hW : (label.getD 0 []).length = W)
    (hu : ∀ row ∈ label, row.length = W)
    (hvals : ∀ v ∈ vals label, 0 ≤ v ∧ v < (cmo.getD defaultLabelColormap).length)
    (hcm : ∀ col ∈ cmo.getD defaultLabelColormap,
      col.length = 3 ∧ ∀ e ∈ col, 0 ≤ e ∧ e < 256) :
    ∃ out, viz_segmentation_label label cmo = .ok out ∧
      out.length = label.length ∧
      (∀ y, y < label.length → (out.getD y []).length = W) ∧
      (∀ y x, y < label.length → x < W →
        px out y x = (cmo.getD defaultLabelColormap).getD (lv label y x).toNat [] ∧
        (px out y x).length = 3) := by
  obtain ⟨out, hok, h1, h2, h3⟩ := viz_label_spec label cmo W hW hu
    (fun v hv => ⟨by have := (hvals v hv).1; omega, (hvals v hv).2⟩)
  refine ⟨out, hok, h1, h2, ?_⟩
  intro y x hy hx
  have hlabrow : (label.getD y []).length = W := by
    apply hu
    rw [List.getD_eq_getElem _ _ hy]
    exact List.getElem_mem hy
  have hv0 := hvals (lv label y x) (lv_mem_vals label y x hy (by omega))
  have hnorm : pyNorm (cmo.getD defaultLabelColormap) (lv label y x) =
      (lv label y x).toNat := by
    rw [pyNorm, if_pos hv0.1]
  have hlt : (lv label y x).toNat < (cmo.getD defaultLabelColormap).length := by
    omega
  have hment : (cmo.getD defaultLabelColormap).getD (lv label y x).toNat [] ∈
      cmo.getD defaultLabelColormap := by
    rw [List.getD_eq_getElem _ _ hlt]
    exact List.getElem_mem hlt
  have hcast : castU8 ((cmo.getD defaultLabelColormap).getD (lv label y x).toNat []) =
      (cmo.getD defaultLabelColormap).getD (lv label y x).toNat [] := by
    rw [castU8]
    refine Eq.trans (List.map_congr_left ?_) (List.map_id _)
    intro e he
    exact Int.emod_eq_of_lt ((hcm _ hment).2 e he).1 ((hcm _ hment).2 e he).2
  rw [h3 y x hy hx, hnorm, hcast]
  exact ⟨rfl, (hcm _ hment).1⟩

theorem label_colorizer_paints_witness :
    ∃ out, viz_segmentation_label [[0, 1], [1, 0]] none = .ok out ∧
      out.length = ([[0, 1], [1, 0]] : List (List Int)).length ∧
      (∀ y, y < ([[0, 1], [1, 0]] : List (List Int)).length →
        (out.getD y []).length = 2) ∧
      (∀ y x, y < ([[0, 1], [1, 0]] : List (List Int)).length → x < 2 →
        px out y x = ((none : Option (List (List Int))).getD
          defaultLabelColormap).getD (lv [[0, 1], [1, 0]] y x).toNat [] ∧
        (px out y x).length = 3) :=
  label_colorizer_paints [[0, 1], [1, 0]] none 2 (by decide)
    (by decide) (by decide) (by decide)

/-- C7 (amended): `viz_segmentation_label` fails, and fails with
`IndexOutOfRange`, exactly when some label value `v` is out of range as a
Python list index: `v ≥ len(colormap)` or `v < -len(colormap)`.  (The
claim's "exceeds len-1" misses the second disjunct: very negative values
also raise, see the counterexample.) -/
theorem label_colorizer_error_iff (label : List (List Int))
    (cmo : Option (List (List Int))) :
    viz_segmentation_label label cmo = .error .IndexOutOfRange ↔
      ∃ v ∈ vals label, v < -((cmo.getD defaultLabelColormap).length : Int) ∨
        ((cmo.getD defaultLabelColormap).length : Int) ≤ v := by
  constructor
  · intro herr
    by_contra hno
    push_neg at hno
    have hfold := label_fold_ok (cmo.getD defaultLabelColormap) label (npUnique label)
      (fun u hmem => by
        have := hno u ((mem_npUnique u label).mp hmem)
        exact ⟨by omega, by omega⟩)
      (List.replicate label.length
        (List.replicate (label.getD 0 []).length ([0, 0, 0] : List Int)))
    rw [viz_segmentation_label] at herr
    rw [hfold] at herr
    exact Except.noConfusion herr
  · rintro ⟨v, hv, hbad⟩
    exact label_fold_err (cmo.getD defaultLabelColormap) label (npUnique label)
      ⟨v, (mem_npUnique v label).mpr hv, hbad⟩
      (List.replicate label.length
        (List.replicate (label.getD 0 []).length ([0, 0, 0] : List Int)))

theorem label_colorizer_error_iff_witness :
    viz_segmentation_label [[5]] none = .error .IndexOutOfRange :=
  (label_colorizer_error_iff [[5]] none).mpr ⟨5, by decide, by decide⟩

/-- C7, counterexample to the stated "if and only if": the label array
`[[-5]]` with the 4-entry default colormap has no value exceeding
`len(colormap) - 1 = 3`, yet the colorizer raises `IndexOutOfRange`
(because `colormap[-5]` is also an invalid Python index). -/
theorem label_colorizer_error_iff_cex :
    viz_segmentation_label [[-5]] none = .error .IndexOutOfRange ∧
    ∀ v ∈ vals [[(-5 : Int)]], v ≤ 4 - 1 := by
  constructor
  · rfl
  · decide

/-- C9 (amended): label values `k` with `-len(colormap) ≤ k < 0` raise no
error; Python's negative indexing applies and those pixels are painted
`colormap[len(colormap) + k]`.  Out-of-range detection triggers exactly
for labels `≥ len(colormap)` or `< -len(colormap)` (the trigger condition
is two-sided, not only `≥ len(colormap)`; see the counterexample). -/
theorem label_colorizer_negative_indexing (label : List (List Int))
    (cmo : Option (List (List Int))) (W : Nat)
    (hW : (label.getD 0 []).length = W)
    (hu : ∀ row ∈ label, row.length = W)
    (hvals : ∀ v ∈ vals label,
      -((cmo.getD defaultLabelColormap).length : Int) ≤ v ∧
        v < (cmo.getD defaultLabelColormap).length)
    (hcm : ∀ col ∈ cmo.getD defaultLabelColormap, ∀ e ∈ col, 0 ≤ e ∧ e < 256) :
    ∃ out, viz_segmentation_label label cmo = .ok out ∧
      ∀ y x, y < label.length → x < W →
        px out y x = (cmo.getD defaultLabelColormap).getD
          (if 0 ≤ lv label y x then (lv label y x).toNat
           else (lv label y x + (cmo.getD defaultLabelColormap).length).toNat) [] := by
  obtain ⟨out, hok, _, _, h3⟩ := viz_label_spec label cmo W hW hu hvals
  refine ⟨out, hok, ?_⟩
  intro y x hy hx
  have hlabrow : (label.getD y []).length = W := by
    apply hu
    rw [List.getD_eq_getElem _ _ hy]
    exact List.getElem_mem hy
  have hv0 := hvals (lv label y x) (lv_mem_vals label y x hy (by omega))
  have hlt : pyNorm (cmo.getD defaultLabelColormap) (lv label y x) <
      (cmo.getD defaultLabelColormap).length := by
    rw [pyNorm]
    by_cases h : 0 ≤ lv label y x
    · rw [if_pos h]; omega
    · rw [if_neg h]; omega
  have hment : (cmo.getD defaultLabelColormap).getD
      (pyNorm (cmo.getD defaultLabelColormap) (lv label y x)) [] ∈
      cmo.getD defaultLabelColormap := by
    rw [List.getD_eq_getElem _ _ hlt]
    exact List.getElem_mem hlt
  have hcast : castU8 ((cmo.getD defaultLabelColormap).getD
      (pyNorm (cmo.getD defaultLabelColormap) (lv label y x)) []) =
      (cmo.getD defaultLabelColormap).getD
        (pyNorm (cmo.getD defaultLabelColormap) (lv label y x)) [] := by
    rw [castU8]
    refine Eq.trans (List.map_congr_left ?_) (List.map_id _)
    intro e he
    exact Int.emod_eq_of_lt ((hcm _ hment) e he).1 ((hcm _ hment) e he).2
  rw [h3 y x hy hx, hcast, pyNorm]

theorem label_colorizer_negative_indexing_witness :
    ∃ out, viz_segmentation_label [[-1]] none = .ok out ∧
      ∀ y x, y < ([[-1]] : List (List Int)).length → x < 1 →
        px out y x = ((none : Option (List (List Int))).getD
          defaultLabelColormap).getD
          (if 0 ≤ lv [[-1]] y x then (lv [[-1]] y x).toNat
           else (lv [[-1]] y x + ((none : Option (List (List Int))).getD
             defaultLabelColormap).length).toNat) [] :=
  label_colorizer_negative_indexing [[-1]] none 1 (by decide) (by decide)
    (by decide) (by decide)

/-- C9, counterexample to "out-of-range detection only triggers for labels
`≥ len(colormap)`": the label `-7` is smaller than the colormap length 4,
yet it triggers `IndexOutOfRange` (it is below `-len(colormap)`). -/
theorem label_colorizer_negative_oob_cex :
    viz_segmentation_label [[-7]] none = .error .IndexOutOfRange ∧
    ((-7 : Int) < (4 : Int)) := by
  constructor
  · rfl
  · decide

/-! ### Image Encoder (`array2pil`) -/

/-- PIL image modes used by the module. -/
inductive PILMode where
  | L
  | RGB
deriving DecidableEq, Repr

/-- `x.squeeze()`: remove all length-1 axes; the row-major buffer is
unchanged. -/
def npSqueeze (a : NDArray) : NDArray :=
  ⟨a.shape.filter (fun d => d ≠ 1), a.data⟩

/-- The `mode` local variable of `array2pil`: the `if`/`elif` chain assigns
it `"L"` for rank-2 input, `"L"` (after squeezing `x`) for rank-3 input
with trailing channel dimension 1, and `"RGB"` for other rank-3 input.  On
every other rank no branch assigns it. -/
def array2pil_mode (x : NDArray) : Option (PILMode × NDArray) :=
  if ndim x = 2 then some (.L, x)
  else if ndim x = 3 ∧ x.shape.getD 2 0 = 1 then some (.L, npSqueeze x)
  else if ndim x = 3 then some (.RGB, x)
  else none

/-- `array2pil(x)` from `viz.py`:

    if x.ndim == 2:
        mode = "L"
    elif x.ndim == 3 and x.shape[2] == 1:
        mode = "L"
        x = x.squeeze()
    elif x.ndim == 3:
        mode = "RGB"
    return PIL.Image.fromarray(x, mode=mode)

The returned PIL image is modelled as its mode together with the array
handed to `fromarray`.  When no branch ran, evaluating the argument `mode`
raises `UnboundLocalError` before `fromarray` is called. -/
def array2pil (x : NDArray) : Except PyError (PILMode × NDArray) :=
  match array2pil_mode x with
  | some mx => .ok mx
  | none => .error .UnboundLocalError

/-- C10: for every input whose rank is neither 2 nor 3, `array2pil` raises
`UnboundLocalError` (the local `mode` was never assigned); equivalently,
`mode` is unassigned exactly on ranks outside {2, 3}. -/
theorem array2pil_unbound_local (x : NDArray) :
    (ndim x ≠ 2 → ndim x ≠ 3 → array2pil x = .error .UnboundLocalError) ∧
    (array2pil_mode x = none ↔ ndim x ≠ 2 ∧ ndim x ≠ 3) := by
  constructor
  · intro h2 h3
    rw [array2pil, array2pil_mode, if_neg h2, if_neg (by tauto), if_neg h3]
  · rw [array2pil_mode]
    by_cases h2 : ndim x = 2
    · rw [if_pos h2]
      simp [h2]
    · rw [if_neg h2]
      by_cases h3 : ndim x = 3
      · by_cases hc : x.shape.getD 2 0 = 1
        · rw [if_pos ⟨h3, hc⟩]
          simp [h3]
        · rw [if_neg (by tauto), if_pos h3]
          simp [h3]
      · rw [if_neg (by tauto), if_neg h3]
        simp [h2, h3]

theorem array2pil_unbound_local_witness :
    array2pil ⟨[2], [1, 2]⟩ = .error .UnboundLocalError ∧
    array2pil ⟨[1, 1, 1, 1], [5]⟩ = .error .UnboundLocalError :=
  ⟨(array2pil_unbound_local ⟨[2], [1, 2]⟩).1 (by decide) (by decide),
   (array2pil_unbound_local ⟨[1, 1, 1, 1], [5]⟩).1 (by decide) (by decide)⟩

/-! ### Overlay Compositor (`viz_overlayed_segmentation_label`) -/

/-- Replicate each gray byte into three equal R, G, B bytes
(`Image.convert` from mode `"L"` to `"RGB"`). -/
def tripleBytes : List Int → List Int
  | [] => []
  | v :: r => v :: v :: v :: tripleBytes r

/-- `img.convert("RGB")` on the PIL image built by `array2pil`: a
grayscale image of shape `[h, w]` becomes shape `[h, w, 3]` with its band
replicated; an RGB image is unchanged. -/
def convertRGB : PILMode × NDArray → NDArray
  | (.RGB, x) => x
  | (.L, x) => ⟨x.shape ++ [3], tripleBytes x.data⟩

def concatAll : List (List Int) → List Int
  | [] => []
  | r :: rs => r ++ concatAll rs

/-- The colorized label image (list of rows of RGB pixels) as the numpy
buffer behind its RGB PIL image. -/
def labToND (img : List (List (List Int))) : NDArray :=
  ⟨[img.length, (img.getD 0 []).length, 3], concatAll (img.map concatAll)⟩

def clip8 (v : Int) : Int := max 0 (min 255 v)

/-- One byte of `PIL.ImageChops.blend` (`ImagingBlend` in C):
`out = in1 + alpha*(in2-in1)`, computed in C `float` (modelled with exact
rational arithmetic) and converted to `UINT8`.  For `0 ≤ alpha ≤ 1` the
value is a convex combination of bytes, hence nonnegative and in range, and
C truncation toward zero equals the floor; outside that range the C code
clips, and floor agrees with truncation after clipping. -/
def blendByte (alpha : ℚ) (a b : Int) : Int :=
  if 0 ≤ alpha ∧ alpha ≤ 1 then ⌊(a : ℚ) + alpha * ((b : ℚ) - (a : ℚ))⌋
  else clip8 ⌊(a : ℚ) + alpha * ((b : ℚ) - (a : ℚ))⌋

/-- `PIL.ImageChops.blend(im1, im2, alpha)`: the images must agree in size
and mode (else PIL raises `ValueError`); the result blends the raw byte
buffers pointwise. -/
def blend (a b : NDArray) (alpha : ℚ) : Except PyError NDArray :=
  if a.shape = b.shape then
    .ok ⟨a.shape, List.zipWith (blendByte alpha) a.data b.data⟩
  else .error .ValueError

/-- The compositor's default colormap: neutral gray, red, green, blue. -/
def overlayDefaultColormap : List (List Int) :=
  [[127, 127, 127], [255, 0, 0], [0, 255, 0], [0, 0, 255]]

/-- `viz_overlayed_segmentation_label(img, label, colormap, alpha)` from
`viz.py`:

    img = array2pil(img)
    img = img.convert("RGB")
    if colormap is None:
        colormap = [[127,127,127],[255,0,0],[0,255,0],[0,0,255]]
    label = viz_segmentation_label(label, colormap=colormap)
    overlay = PIL.ImageChops.blend(img, label, alpha=alpha)
    return overlay

The optional JPEG save (`saveto`) is file I/O and is not modelled. -/
def viz_overlayed_segmentation_label (img : NDArray) (label : List (List Int))
    (colormap : Option (List (List Int))) (alpha : ℚ) : Except PyError NDArray :=
  match array2pil img with
  | .error e => .error e
  | .ok mx =>
    let base := convertRGB mx
    let cm := colormap.getD overlayDefaultColormap
    match viz_segmentation_label label (some cm) with
    | .error e => .error e
    | .ok lab => blend base (labToND lab) alpha

/-! ### Lemmas about the blend -/

theorem blendByte_zero (a b : Int) : blendByte 0 a b = a := by
  rw [blendByte, if_pos (by norm_num)]
  norm_num

theorem blendByte_one (a b : Int) : blendByte 1 a b = b := by
  rw [blendByte, if_pos (by norm_num)]
  norm_num

theorem zipWith_left_of (f : Int → Int → Int) (hf : ∀ a b, f a b = a) :
    ∀ (as bs : List Int), as.length ≤ bs.length → List.zipWith f as bs = as := by
  intro as
  induction as with
  | nil => intro bs _; rfl
  | cons a as ih =>
    intro bs hlen
    cases bs with
    | nil => simp at hlen
    | cons b bs =>
      rw [List.zipWith_cons_cons, hf, ih bs (by simpa using hlen)]

theorem zipWith_right_of (f : Int → Int → Int) (hf : ∀ a b, f a b = b) :
    ∀ (as bs : List Int), bs.length ≤ as.length → List.zipWith f as bs = bs := by
  intro as
  induction as with
  | nil =>
    intro bs hlen
    rw [List.length_nil, Nat.le_zero, List.length_eq_zero] at hlen
    rw [hlen]
    rfl
  | cons a as ih =>
    intro bs hlen
    cases bs with
    | nil => rfl
    | cons b bs =>
      rw [List.zipWith_cons_cons, hf, ih bs (by simpa using hlen)]

/-- C8: the Overlay Compositor computes the per-pixel (per-byte) linear
blend `out = (1-alpha)*base + alpha*colorized_label` (quantized to uint8 by
the floor); in particular, with `alpha = 0` it returns exactly the base
image converted to three-channel color, and with `alpha = 1` exactly the
colorized label. -/
theorem overlay_blend_spec (img : NDArray) (label : List (List Int))
    (cmo : Option (List (List Int))) (alpha : ℚ)
    (mx : PILMode × NDArray) (lab : List (List (List Int)))
    (hpil : array2pil img = .ok mx)
    (hlab : viz_segmentation_label label
      (some (cmo.getD overlayDefaultColormap)) = .ok lab)
    (hsh : (convertRGB mx).shape = (labToND lab).shape)
    (hlen : (convertRGB mx).data.length = (labToND lab).data.length) :
    (alpha = 0 →
      viz_overlayed_segmentation_label img label cmo alpha = .ok (convertRGB mx)) ∧
    (alpha = 1 →
      viz_overlayed_segmentation_label img label cmo alpha = .ok (labToND lab)) ∧
    (0 ≤ alpha → alpha ≤ 1 →
      ∃ out, viz_overlayed_segmentation_label img label cmo alpha = .ok out ∧
        out.shape = (convertRGB mx).shape ∧
        out.data.length = (convertRGB mx).data.length ∧
        ∀ i, i < out.data.length →
          out.data.getD i 0 =
            ⌊(1 - alpha) * ((convertRGB mx).data.getD i 0 : ℚ) +
              alpha * ((labToND lab).data.getD i 0 : ℚ)⌋) := by
  have hred : viz_overlayed_segmentation_label img label cmo alpha =
      blend (convertRGB mx) (labToND lab) alpha := by
    rw [viz_overlayed_segmentation_label, hpil]
    dsimp only
    rw [hlab]
  refine ⟨?_, ?_, ?_⟩
  · rintro rfl
    rw [hred, blend, if_pos hsh,
      zipWith_left_of _ blendByte_zero _ _ (le_of_eq hlen)]
  · rintro rfl
    rw [hred, blend, if_pos hsh,
      zipWith_right_of _ blendByte_one _ _ (ge_of_eq hlen)]
    rw [hsh]
  · intro h0 h1
    rw [hred, blend, if_pos hsh]
    refine ⟨_, rfl, rfl, ?_, ?_⟩
    · rw [List.length_zipWith, hlen, Nat.min_self]
    · intro i hi
      rw [List.length_zipWith] at hi
      rw [getD_zipWith _ _ _ _ _ 0 0 (by omega) (by omega)]
      rw [blendByte, if_pos ⟨h0, h1⟩]
      congr 1
      ring

theorem overlay_blend_spec_witness :
    viz_overlayed_segmentation_label ⟨[1, 1], [100]⟩ [[0]] none 0 =
      .ok (convertRGB (.L, ⟨[1, 1], [100]⟩)) ∧
    viz_overlayed_segmentation_label ⟨[1, 1], [100]⟩ [[0]] none 1 =
      .ok (labToND [[[127, 127, 127]]]) :=
  ⟨(overlay_blend_spec ⟨[1, 1], [100]⟩ [[0]] none 0 (.L, ⟨[1, 1], [100]⟩)
      [[[127, 127, 127]]] rfl rfl (by decide) (by decide)).1 rfl,
   (overlay_blend_spec ⟨[1, 1], [100]⟩ [[0]] none 1 (.L, ⟨[1, 1], [100]⟩)
      [[[127, 127, 127]]] rfl rfl (by decide) (by decide)).2.1 rfl⟩

end Viz
